import Mathlib

/-!
# Verification of the cobra-rs stream multiplexing library core

A shallow embedding of the core data structures and operations of the
cobra-rs library (frame codec, incremental deframer, rendezvous pool,
kind-multiplexed pool, context/builder composition layer), together with
theorems settling the spec claims against the code.

Bytes are modelled as `Nat` values (< 256 where the Rust type is `u8`);
byte buffers (`BytesMut`, `Vec<u8>`) as `List Nat`.  Machine-integer
wrap-around (`u8` and the `bytes` crate truncating `put_uint`) is made
explicit with `% 256` / division, never hidden.
-/

namespace Cobra

/-! ## Byte-level helpers (the `bytes` crate primitives)

`BufMut::put_uint(n, w)` appends the low `w` bytes of `n`, big-endian:
it writes `n.to_be_bytes()[8-w..]`, silently truncating values that do
not fit in `w` bytes.  `Buf::get_uint(w)` reads `w` bytes big-endian. -/

/-- Big-endian encoding of the low `w` bytes of `v`
(the semantics of `BufMut::put_uint(v, w)`). -/
def putUint (v : Nat) : Nat → List Nat
  | 0 => []
  | w + 1 => putUint (v / 256) w ++ [v % 256]

/-- Big-endian value of a byte list
(the accumulator loop underlying `Buf::get_uint`). -/
def bytesToNat (l : List Nat) : Nat :=
  l.foldl (fun a b => 256 * a + b) 0

/-- Big-endian value of the first `w` bytes of a stream
(the semantics of `Buf::get_uint(w)`; the caller drops the `w` bytes). -/
def getUint (w : Nat) (l : List Nat) : Nat :=
  bytesToNat (l.take w)

theorem putUint_length (v w : Nat) : (putUint v w).length = w := by
  induction w generalizing v with
  | zero => rfl
  | succ w ih => simp [putUint, ih]

theorem bytesToNat_append_singleton (l : List Nat) (b : Nat) :
    bytesToNat (l ++ [b]) = 256 * bytesToNat l + b := by
  simp [bytesToNat, List.foldl_append]

/-- Decoding inverts encoding for values that fit in `w` bytes. -/
theorem bytesToNat_putUint (v w : Nat) (h : v < 256 ^ w) :
    bytesToNat (putUint v w) = v := by
  induction w generalizing v with
  | zero =>
    simp [pow_zero] at h
    simp [putUint, bytesToNat, h]
  | succ w ih =>
    have hdiv : v / 256 < 256 ^ w := by
      rw [Nat.div_lt_iff_lt_mul (by norm_num)]
      calc v < 256 ^ (w + 1) := h
        _ = 256 ^ w * 256 := by ring
    rw [putUint, bytesToNat_append_singleton, ih _ hdiv]
    omega

/-- Decoding a truncated encoding recovers the value modulo `256 ^ w`. -/
theorem bytesToNat_putUint_mod (v w : Nat) :
    bytesToNat (putUint v w) = v % 256 ^ w := by
  induction w generalizing v with
  | zero => simp [putUint, bytesToNat, Nat.mod_one]
  | succ w ih =>
    rw [putUint, bytesToNat_append_singleton, ih]
    have hp : 0 < 256 ^ w := Nat.pos_pow_of_pos w (by norm_num)
    have key : v = 256 ^ (w + 1) * (v / 256 / 256 ^ w) +
        (256 * (v / 256 % 256 ^ w) + v % 256) := by
      have e2 := Nat.div_add_mod (v / 256) (256 ^ w)
      calc v = 256 * (v / 256) + v % 256 := (Nat.div_add_mod v 256).symm
        _ = 256 * (256 ^ w * (v / 256 / 256 ^ w) + v / 256 % 256 ^ w) + v % 256 := by
            rw [e2]
        _ = 256 ^ (w + 1) * (v / 256 / 256 ^ w) +
            (256 * (v / 256 % 256 ^ w) + v % 256) := by ring
    have hlt : 256 * (v / 256 % 256 ^ w) + v % 256 < 256 ^ (w + 1) := by
      have h1 : v / 256 % 256 ^ w < 256 ^ w := Nat.mod_lt _ hp
      have h2 : v % 256 < 256 := Nat.mod_lt _ (by norm_num)
      have h3 : 256 ^ (w + 1) = 256 * 256 ^ w := by ring
      omega
    conv_rhs => rw [key]
    rw [Nat.add_comm (256 ^ (w + 1) * _), Nat.mul_comm (256 ^ (w + 1)),
      Nat.add_mul_mod_self_right, Nat.mod_eq_of_lt hlt]

theorem bytesToNat_lt_of_bytes (l : List Nat) (h : ∀ b ∈ l, b < 256) :
    bytesToNat l < 256 ^ l.length := by
  suffices haux : ∀ a, l.foldl (fun x b => 256 * x + b) a < (a + 1) * 256 ^ l.length by
    simpa [bytesToNat] using haux 0
  induction l with
  | nil => intro a; simp
  | cons b t ih =>
    intro a
    have hb : b < 256 := h b (List.mem_cons_self b t)
    have ht : ∀ x ∈ t, x < 256 := fun x hx => h x (List.mem_cons_of_mem b hx)
    have h1 : t.foldl (fun x c => 256 * x + c) (256 * a + b) <
        (256 * a + b + 1) * 256 ^ t.length := by
      have := ih ht (256 * a + b)
      simpa using this
    calc (b :: t).foldl (fun x c => 256 * x + c) a
        = t.foldl (fun x c => 256 * x + c) (256 * a + b) := by simp
      _ < (256 * a + b + 1) * 256 ^ t.length := h1
      _ ≤ (256 * (a + 1)) * 256 ^ t.length := by
          have : 256 * a + b + 1 ≤ 256 * (a + 1) := by omega
          exact Nat.mul_le_mul_right _ this
      _ = (a + 1) * 256 ^ (t.length + 1) := by ring
      _ = (a + 1) * 256 ^ (b :: t).length := by simp

theorem putUint_bytes_lt (v w : Nat) : ∀ b ∈ putUint v w, b < 256 := by
  induction w generalizing v with
  | zero => simp [putUint]
  | succ w ih =>
    intro b hb
    rw [putUint] at hb
    rcases List.mem_append.1 hb with h | h
    · exact ih _ b h
    · simp at h
      subst h
      exact Nat.mod_lt _ (by norm_num)

/-! ## Frame (src/mem/frame.rs)

`HEADER_LEN_BYTES = 2`, `HEADER_KIND_BYTES = 1`, `HEADER_BYTES = 3`.
`Frame::create(kind, body)` allocates `3 + body.len()` bytes, writes the
length field `capacity - HEADER_LEN_BYTES = 1 + body.len()` over 2 bytes
big-endian (`put_uint`, which truncates to the low 2 bytes), then the
kind byte, then the body.  `BytesMut::with_capacity(n).capacity() = n`,
as the test `mem_frame.rs::simple_frame` confirms. -/

def HEADER_LEN_BYTES : Nat := 2

def HEADER_KIND_BYTES : Nat := 1

def HEADER_BYTES : Nat := HEADER_LEN_BYTES + HEADER_KIND_BYTES

namespace Frame

/-- Source `Frame::create` (frame.rs lines 28-46): length field, kind byte, body. -/
def create (kind : Nat) (body : List Nat) : List Nat :=
  putUint (1 + body.length) HEADER_LEN_BYTES ++ putUint kind HEADER_KIND_BYTES ++ body

/-- Source `Frame::get_body` (frame.rs lines 54-56): `split_off(HEADER_BYTES)`. -/
def get_body (f : List Nat) : List Nat :=
  f.drop HEADER_BYTES

/-- Source `Frame::kind` (frame.rs lines 59-63): the byte at index `HEADER_LEN_BYTES`. -/
def kindByte (f : List Nat) : Nat :=
  f.getD HEADER_LEN_BYTES 0

/-- The value of the 2-byte big-endian length field of a wire frame. -/
def lengthField (f : List Nat) : Nat :=
  getUint HEADER_LEN_BYTES f

theorem create_def (kind : Nat) (body : List Nat) :
    create kind body = putUint (1 + body.length) 2 ++ [kind % 256] ++ body := by
  simp [create, HEADER_LEN_BYTES, HEADER_KIND_BYTES, putUint]

theorem get_body_create (kind : Nat) (body : List Nat) :
    get_body (create kind body) = body := by
  simp [create, get_body, putUint, HEADER_BYTES, HEADER_LEN_BYTES, HEADER_KIND_BYTES]

theorem create_length (kind : Nat) (body : List Nat) :
    (create kind body).length = HEADER_BYTES + body.length := by
  simp [create, putUint_length, HEADER_BYTES, HEADER_LEN_BYTES, HEADER_KIND_BYTES]
  omega

theorem kindByte_create (kind : Nat) (body : List Nat) (h : kind < 256) :
    kindByte (create kind body) = kind := by
  simp [create, kindByte, putUint, HEADER_LEN_BYTES, HEADER_KIND_BYTES,
    Nat.mod_eq_of_lt h]

theorem lengthField_create_mod (kind : Nat) (body : List Nat) :
    lengthField (create kind body) = (1 + body.length) % 256 ^ HEADER_LEN_BYTES := by
  have h2 : (putUint (1 + body.length) HEADER_LEN_BYTES).length = HEADER_LEN_BYTES :=
    putUint_length _ _
  rw [lengthField, getUint, create, List.append_assoc,
    List.take_append_of_le_length (le_of_eq h2.symm), List.take_of_length_le (le_of_eq h2)]
  exact bytesToNat_putUint_mod _ _

theorem lengthField_create (kind : Nat) (body : List Nat)
    (h : body.length + 1 < 256 ^ HEADER_LEN_BYTES) :
    lengthField (create kind body) = 1 + body.length := by
  rw [lengthField_create_mod, Nat.mod_eq_of_lt (by omega)]

end Frame

/-! ## KindConn read/write pipeline (src/builder/kind_conn.rs)

`KindConn::write` (lines 51-70): in `Raw` mode the package is wrapped
directly with `Frame::create(kind, package)`; in `Handle` mode it is
encrypted, then compressed, then wrapped.  `KindConn::read` (lines
34-49): the frame body is extracted (`get_body().to_vec()`), then
decompressed, then decrypted.  The encryption and compression providers
are modelled as their pure byte-transforming functions; the underlying
`ConnProvider` delivers the frame object intact to the peer. -/

inductive ContextMode where
  | raw
  | handle
  deriving DecidableEq, Repr

namespace KindConn

/-- Source `KindConn::write` without the conn hand-off: the frame it builds. -/
def write (encrypt compress : List Nat → List Nat) (mode : ContextMode)
    (kind : Nat) (package : List Nat) : List Nat :=
  match mode with
  | .raw => Frame.create kind package
  | .handle => Frame.create kind (compress (encrypt package))

/-- Source `KindConn::read` after the conn delivered `frame`: body extraction,
then decompress, then decrypt. -/
def read (decrypt decompress : List Nat → List Nat) (frame : List Nat) : List Nat :=
  decrypt (decompress (Frame.get_body frame))

end KindConn

/-- Source `NilEncryption::encrypt/decrypt` (empty_realisations.rs lines 35-41): identity. -/
def nilEncrypt (package : List Nat) : List Nat := package

/-- Source `NilEncryption::decrypt`: identity. -/
def nilDecrypt (package : List Nat) : List Nat := package

/-- Source `NilCompression::compress` (empty_realisations.rs lines 56-62): identity. -/
def nilCompress (package : List Nat) : List Nat := package

/-- Source `NilCompression::decompress`: identity. -/
def nilDecompress (package : List Nat) : List Nat := package

/-- C1: with the Nil (identity) encryption and compression providers,
reading the frame produced by `KindConn::write` on the peer side yields
exactly the written bytes, in either mode, and the frame carries the
requested kind: the receive pipeline (body extraction, decompress,
decrypt) inverts the send pipeline (encrypt, compress, frame wrapping). -/
theorem claim1_nil_provider_roundtrip (mode : ContextMode) (kind : Nat)
    (B : List Nat) (hk : kind < 256) :
    KindConn.read nilDecrypt nilDecompress
      (KindConn.write nilEncrypt nilCompress mode kind B) = B ∧
    Frame.kindByte (KindConn.write nilEncrypt nilCompress mode kind B) = kind := by
  cases mode <;>
    simp [KindConn.read, KindConn.write, nilEncrypt, nilDecrypt, nilCompress,
      nilDecompress, Frame.get_body_create, Frame.kindByte_create _ _ hk]

/-- C1 witness: the round trip at kind 1 and body `[1, 2, 3]` in `Handle` mode. -/
theorem claim1_nil_provider_roundtrip_case :
    KindConn.read nilDecrypt nilDecompress
      (KindConn.write nilEncrypt nilCompress ContextMode.handle 1 [1, 2, 3]) = [1, 2, 3] ∧
    Frame.kindByte (KindConn.write nilEncrypt nilCompress ContextMode.handle 1 [1, 2, 3]) = 1 :=
  claim1_nil_provider_roundtrip ContextMode.handle 1 [1, 2, 3] (by norm_num)

/-- A concrete 65535-byte body, the smallest size the claim says must fail. -/
def oversizedBody : List Nat := List.replicate 65535 0

theorem oversizedBody_length : oversizedBody.length = 65535 := by
  rw [oversizedBody, List.length_replicate]

/-- C4 counterexample: for a body of 65535 bytes (`body.len() + 1 = 256^2`),
the claim requires `create` to fail with `BodyTooLarge`, but the code has no
failure path: it produces a normal frame whose 2-byte length field silently
truncated `65536` to `0`. -/
theorem claim4_create_no_failure_counterexample :
    256 ^ 2 ≤ oversizedBody.length + 1 ∧
    (Frame.create 0 oversizedBody).length = 3 + 65535 ∧
    Frame.lengthField (Frame.create 0 oversizedBody) = 0 := by
  refine ⟨by rw [oversizedBody_length]; norm_num, ?_, ?_⟩
  · rw [Frame.create_length, oversizedBody_length, HEADER_BYTES, HEADER_LEN_BYTES,
      HEADER_KIND_BYTES]
  · rw [Frame.lengthField_create_mod, oversizedBody_length, HEADER_LEN_BYTES]
    norm_num

/-- C4 amended: `Frame::create(k, b)` always produces a buffer of
`header_len + 1 + b.len()` bytes laid out as length field, kind byte, body;
when `b.len() + 1 < 256^header_len` the big-endian length field holds exactly
`1 + b.len()`; for larger bodies `create` does not fail: `put_uint` writes
`1 + b.len()` truncated to its low `header_len` bytes (no `BodyTooLarge`). -/
theorem claim4_create_layout (kind : Nat) (body : List Nat) :
    (Frame.create kind body).length = HEADER_BYTES + body.length ∧
    Frame.get_body (Frame.create kind body) = body ∧
    (kind < 256 → Frame.kindByte (Frame.create kind body) = kind) ∧
    (body.length + 1 < 256 ^ HEADER_LEN_BYTES →
      Frame.lengthField (Frame.create kind body) = 1 + body.length) ∧
    Frame.lengthField (Frame.create kind body) =
      (1 + body.length) % 256 ^ HEADER_LEN_BYTES :=
  ⟨Frame.create_length kind body, Frame.get_body_create kind body,
    Frame.kindByte_create kind body,
    Frame.lengthField_create kind body,
    Frame.lengthField_create_mod kind body⟩

/-- C4 witness: the frame of the test `mem_frame.rs::simple_frame`:
`create(1, [1,2,3])` is `[0, 4, 1, 1, 2, 3]`. -/
theorem claim4_create_layout_case :
    (Frame.create 1 [1, 2, 3]).length = 6 ∧
    Frame.kindByte (Frame.create 1 [1, 2, 3]) = 1 ∧
    Frame.lengthField (Frame.create 1 [1, 2, 3]) = 4 := by
  obtain ⟨h1, _, h3, h4, _⟩ := claim4_create_layout 1 [1, 2, 3]
  exact ⟨by simpa [HEADER_BYTES, HEADER_LEN_BYTES, HEADER_KIND_BYTES] using h1,
    h3 (by norm_num), by simpa using h4 (by norm_num [HEADER_LEN_BYTES])⟩

/-! ## WriteError (src/sync/pool.rs lines 9-25) -/

inductive WriteError (T : Type) where
  | Rejected (v : T)
  | Closed (v : T)
  deriving DecidableEq, Repr

namespace WriteError

/-- Source `WriteError::map` exactly as written in pool.rs lines 19-24: note that
the `Closed(e)` arm constructs `Rejected(op(e))` (line 22). -/
def map {T F : Type} (e : WriteError T) (op : T → F) : WriteError F :=
  match e with
  | .Rejected v => .Rejected (op v)
  | .Closed v => .Rejected (op v)

end WriteError

/-- C2: `WriteError::map` does not preserve the error variant: evaluated at
the failing input `Closed(0)` with the identity mapping, the code yields
`Rejected(0)` where the spec (and the `Closed` variant documentation,
"Pool is closed") requires `Closed(0)`.  The `Closed` arm of `map`
constructs the wrong variant. -/
theorem claim2_map_loses_closed_variant :
    WriteError.map (WriteError.Closed (0 : Nat)) (fun v => v) = WriteError.Rejected 0 ∧
    WriteError.Rejected (0 : Nat) ≠ WriteError.Closed 0 :=
  ⟨rfl, by decide⟩

/-! ## Context kind counter (src/builder/context.rs lines 45-49)

`kind_counter : RwLock<u8>` starts at 1 (context.rs line 36).
`get_kind_conn` performs `*counter += 1` and then returns a `KindConn`
with `kind = *counter - 1`.  The counter is a `u8`: the arithmetic wraps
modulo 256 (release-build semantics; a debug build panics on the
increment past 255).  The function has no error path — it returns a
`KindConn` unconditionally. -/

/-- One `get_kind_conn` call on a counter value: the new counter value and
the dispensed kind (`u8` wrap-around made explicit). -/
def get_kind_conn (counter : Nat) : Nat × Nat :=
  ((counter + 1) % 256, ((counter + 1) % 256 + 255) % 256)

/-- The counter value after `n` calls, from the initial value 1. -/
def counterAfter : Nat → Nat
  | 0 => 1
  | n + 1 => (get_kind_conn (counterAfter n)).1

/-- The kind dispensed by the `n`-th call (`n ≥ 1`). -/
def kindAt (n : Nat) : Nat :=
  (get_kind_conn (counterAfter (n - 1))).2

theorem counterAfter_eq (n : Nat) : counterAfter n = (1 + n) % 256 := by
  induction n with
  | zero => rfl
  | succ n ih =>
    rw [counterAfter, get_kind_conn, ih]
    simp only [Nat.mod_add_mod]
    omega

theorem kindAt_eq (n : Nat) (h : 1 ≤ n) : kindAt n = n % 256 := by
  rw [kindAt, get_kind_conn, counterAfter_eq]
  simp only [Nat.mod_add_mod]
  have h1 : 1 + (n - 1) + 1 + 255 = n + 256 := by omega
  rw [h1, Nat.add_mod_right]

/-- C5 counterexample: the 255 first calls dispense kinds 1..255 with no
error, and the 256-th call — which the claim says must yield an error —
dispenses kind 0 (the reserved kind) because the `u8` counter wraps. -/
theorem claim5_overflow_counterexample :
    kindAt 255 = 255 ∧ kindAt 256 = 0 := by
  constructor
  · rw [kindAt_eq 255 (by norm_num)]
  · rw [kindAt_eq 256 (by norm_num)]

/-- C5 amended: the `n`-th `get_kind_conn` call returns kind `n % 256`:
kinds 1..255 are dispensed in sequence as claimed, but allocation past 255
neither errs nor stops — the counter wraps, the 256-th call dispenses the
reserved kind 0, and kinds repeat with period 256. -/
theorem claim5_kind_sequence (n : Nat) (h1 : 1 ≤ n) :
    kindAt n = n % 256 ∧ (n ≤ 255 → kindAt n = n) := by
  refine ⟨kindAt_eq n h1, fun h2 => ?_⟩
  rw [kindAt_eq n h1, Nat.mod_eq_of_lt (by omega)]

/-- C5 witness: the 7th call dispenses kind 7. -/
theorem claim5_kind_sequence_case : kindAt 7 = 7 % 256 ∧ kindAt 7 = 7 :=
  let h := claim5_kind_sequence 7 (by norm_num)
  ⟨h.1, h.2 (by norm_num)⟩

/-! ## Builder::run (src/builder/builder.rs lines 92-120)

The conn provider is abstracted to whether it was set, the encryption
provider to whether its `init` succeeds; the remaining defaults are the
`Nil` providers (builder.rs lines 97-108), which allocate no kind.  The
code returns `ConnNotSet` before touching any provider (lines 93-96),
then invokes `ping.init` with the `Handle`-mode clone of the context
(line 115), then `encryption.init` with the `Raw`-mode clone (line 116,
error propagated), and finally returns `context.get_kind_conn()` — the
first application KindConn: kind 1, mode `Handle` (line 119). -/

inductive InitEvent where
  | pingInit (mode : ContextMode)
  | encryptionInit (mode : ContextMode)
  deriving DecidableEq, Repr

inductive BuildError where
  | ConnNotSet
  | EncryptionInitFailed
  deriving DecidableEq, Repr

/-- Outcome of `Builder::run`: provider `init` invocations in order, and the
result (the returned KindConn abstracted to its kind and mode). -/
structure RunOutcome where
  events : List InitEvent
  result : Except BuildError (Nat × ContextMode)
  deriving Repr

/-- Source `Builder::run` (builder.rs lines 92-120). -/
def Builder.run (connSet : Bool) (encryptionInitOk : Bool) : RunOutcome :=
  if !connSet then ⟨[], .error .ConnNotSet⟩
  else
    let events := [InitEvent.pingInit .handle, InitEvent.encryptionInit .raw]
    if encryptionInitOk then
      ⟨events, .ok ((get_kind_conn 1).2, .handle)⟩
    else
      ⟨events, .error .EncryptionInitFailed⟩

/-- C6 counterexample: with a conn set, `Builder::run` invokes `ping.init`
(with the Handle-mode context) BEFORE `encryption.init` (with the Raw-mode
clone) — the reverse of the order the claim states. -/
theorem claim6_init_order_counterexample :
    (Builder.run true true).events =
      [InitEvent.pingInit .handle, InitEvent.encryptionInit .raw] ∧
    (Builder.run true true).events ≠
      [InitEvent.encryptionInit .raw, InitEvent.pingInit .handle] :=
  ⟨rfl, by decide⟩

/-- C6 amended: `Builder::run` returns `ConnNotSet` without invoking any
provider init when no conn was set; otherwise it invokes `ping.init` with a
Handle-mode context BEFORE `encryption.init` with a Raw-mode clone, returns
`EncryptionInitFailed` when `encryption.init` errs, and on success returns
the first application KindConn (kind 1, mode Handle). -/
theorem claim6_run_behaviour :
    Builder.run false true = ⟨[], .error .ConnNotSet⟩ ∧
    Builder.run false false = ⟨[], .error .ConnNotSet⟩ ∧
    (Builder.run true false).events =
      [InitEvent.pingInit .handle, InitEvent.encryptionInit .raw] ∧
    (Builder.run true false).result = .error .EncryptionInitFailed ∧
    Builder.run true true =
      ⟨[InitEvent.pingInit .handle, InitEvent.encryptionInit .raw], .ok (1, .handle)⟩ :=
  ⟨rfl, rfl, rfl, rfl, rfl⟩

/-! ## Conn write worker (src/transport/conn.rs lines 110-130)

`write_loop` takes a `PoolGuard<Frame>` from the write pool and
transmits it with partial-write resumption: while the frame is non-empty
it awaits socket writability (error ⇒ break) and calls `try_write`; on
`Ok(n)` it drops the `n` transmitted bytes IN PLACE
(`**frame = frame.split_off(n)`, line 119), on `WouldBlock` it retries,
on any other error it breaks.  After the loop a non-empty frame is
rejected (line 126); `PoolGuard::reject` (pool.rs lines 233-240) shares
the guard CURRENT value back, so the paired `Conn::write` returns
`WriteError::Rejected` carrying that value (pool.rs lines 109-116,
159-172).  A frame that empties lets the guard drop, which acts as
accept (pool.rs lines 267-273), and the writer returns `Ok`. -/

/-- One socket interaction of the write loop.  `ioErr` covers both a
`writable()` error and a fatal `try_write` error: both `break`. -/
inductive IoEv where
  | wrote (n : Nat)
  | wouldBlock
  | ioErr
  deriving DecidableEq, Repr

/-- What the paired `Conn::write` observes for one offered frame. -/
inductive WriteOutcome where
  | ok
  | rejected (rest : List Nat)
  deriving DecidableEq, Repr

/-- How the write worker handles of one frame against a sequence of socket
events (conn.rs lines 112-127).  `none`: the events ran out while the
worker still had bytes to transmit (it stays suspended on the socket). -/
def writeLoopRun : List IoEv → List Nat → Option WriteOutcome
  | _, [] => some .ok
  | [], _ :: _ => none
  | .wrote n :: evs, b :: rest => writeLoopRun evs ((b :: rest).drop n)
  | .wouldBlock :: evs, b :: rest => writeLoopRun evs (b :: rest)
  | .ioErr :: _, b :: rest => some (.rejected (b :: rest))

/-- C3 counterexample: a frame `[0, 1, 2]` whose first byte is transmitted
(`try_write` returns 1) before a socket error: the worker rejects the
mutated guard, so the caller write returns `Rejected([1, 2])` — the
untransmitted remainder, not the original frame `[0, 1, 2]` the claim
requires. -/
theorem claim3_reject_remainder_counterexample :
    writeLoopRun [IoEv.wrote 1, IoEv.ioErr] [0, 1, 2] =
      some (WriteOutcome.rejected [1, 2]) ∧
    WriteOutcome.rejected [1, 2] ≠ WriteOutcome.rejected [0, 1, 2] :=
  ⟨rfl, by decide⟩

/-- C3 amended: when the write worker fails to transmit a frame `f` and
rejects it, the caller write returns `Rejected(g)` where `g` is the
non-empty untransmitted suffix of `f` — the bytes remaining after the
in-place `split_off` partial-write bookkeeping; `g = f` only when no byte
was transmitted before the failure.  (The pool law itself holds: reject
returns exactly the value the guard holds at reject time.) -/
theorem claim3_reject_returns_suffix (evs : List IoEv) (f g : List Nat)
    (h : writeLoopRun evs f = some (WriteOutcome.rejected g)) :
    g ≠ [] ∧ g <:+ f := by
  induction evs generalizing f with
  | nil =>
    cases f with
    | nil => simp [writeLoopRun] at h
    | cons b rest => simp [writeLoopRun] at h
  | cons e evs ih =>
    cases f with
    | nil => simp [writeLoopRun] at h
    | cons b rest =>
      cases e with
      | wrote n =>
        have h2 := ih ((b :: rest).drop n) (by simpa [writeLoopRun] using h)
        exact ⟨h2.1, h2.2.trans (List.drop_suffix n (b :: rest))⟩
      | wouldBlock =>
        exact ih (b :: rest) (by simpa [writeLoopRun] using h)
      | ioErr =>
        have h2 : g = b :: rest := by
          have := h
          simp [writeLoopRun] at this
          exact this.symm
        subst h2
        exact ⟨List.cons_ne_nil b rest, List.suffix_refl _⟩

/-- C3 witness: a frame `[5]` hit by an immediate socket error is rejected
whole: the remainder equals the original frame. -/
theorem claim3_reject_returns_suffix_case :
    writeLoopRun [IoEv.ioErr] [5] = some (WriteOutcome.rejected [5]) ∧
    [5] ≠ ([] : List Nat) ∧ [5] <:+ [5] :=
  ⟨rfl, (claim3_reject_returns_suffix [IoEv.ioErr] [5] [5] rfl).1,
    (claim3_reject_returns_suffix [IoEv.ioErr] [5] [5] rfl).2⟩

/-! ## KindPool (src/sync/kind_pool.rs) over child Pool slots
(src/sync/pool.rs)

Only the state the close/write/read interactions of the claims touch is
modelled.  A child `Pool` rendezvous state holds its store slot, its
read- and write-semaphore permit counts and its closed flag (a closed
tokio semaphore fails every acquire, even with permits left).  The
`taken` flag driving deferred close of the response semaphore (pool.rs
lines 178-199) is not exercised by these claims and is omitted. -/

structure PoolSt (V : Type) where
  store : Option V
  readPermits : Nat
  writePermits : Nat
  closed : Bool
  deriving DecidableEq, Repr

/-- Source `PoolState::new` (pool.rs lines 124-133): 0 read, 1 write permit. -/
def PoolSt.init (V : Type) : PoolSt V := ⟨none, 0, 1, false⟩

structure KindPoolSt (V : Type) where
  closed : Bool
  pools : List (Nat × PoolSt V)
  deriving DecidableEq, Repr

/-- Source `KindPoolState::new` (kind_pool.rs lines 137-143). -/
def KindPoolSt.init (V : Type) : KindPoolSt V := ⟨false, []⟩

/-- Source `KindPoolState::get_pool` (kind_pool.rs lines 145-149): the child pool
for a kind, created lazily on first reference. -/
def KindPoolSt.getPool {V : Type} (s : KindPoolSt V) (k : Nat) : PoolSt V :=
  match s.pools.lookup k with
  | some p => p
  | none => PoolSt.init V

/-- Store back a child pool state under its kind. -/
def KindPoolSt.setPool {V : Type} (s : KindPoolSt V) (k : Nat) (p : PoolSt V) :
    KindPoolSt V :=
  ⟨s.closed, (k, p) :: s.pools⟩

/-- What a `KindPool::write` caller observes once `write_value` resolves:
the `Closed(v)` error, or suspension awaiting the reader response
(`pending`), or queueing on the child write semaphore (`blocked`). -/
inductive KWriteStatus (V : Type) where
  | closedErr (v : V)
  | pending
  | blocked
  deriving DecidableEq, Repr

/-- What a `KindPool::read` caller observes: `None` (closedNone), a guard
holding a value (`got`), or suspension on the read semaphore (`blocked`). -/
inductive KReadStatus (V : Type) where
  | closedNone
  | got (v : V)
  | blocked
  deriving DecidableEq, Repr

/-- Source `KindPool::write` (kind_pool.rs lines 103-109) up to the writer
suspension point.  The KindPool closed flag is checked FIRST and returns
`Closed(v)` without touching any child; otherwise the value is dispatched
by `v.kind()` into the lazily created child via `Pool::write`, whose
`write_value` (pool.rs lines 144-157) acquires the write semaphore
(failing with `Closed` if the child semaphore is closed), shares the
value into the store and posts one read permit. -/
def kindWrite {V : Type} (kindOf : V → Nat) (s : KindPoolSt V) (v : V) :
    KindPoolSt V × KWriteStatus V :=
  if s.closed then (s, .closedErr v)
  else
    let k := kindOf v
    let p := s.getPool k
    if p.closed then (s.setPool k p, .closedErr v)
    else if p.writePermits = 0 then (s.setPool k p, .blocked)
    else
      (s.setPool k
        { p with
          writePermits := p.writePermits - 1
          store := some v
          readPermits := p.readPermits + 1 },
       .pending)

/-- Source `KindPool::close` (kind_pool.rs lines 131-134 and 151-156): sets the
closed flag, then iterates the children calling the async `Pool::close`
WITHOUT awaiting the returned future (line 154 has no `.await`), so no
child close body ever runs: child pool states are unchanged. -/
def kindClose {V : Type} (s : KindPoolSt V) : KindPoolSt V :=
  { s with closed := true }

/-- Source `KindPool::read` (kind_pool.rs lines 123-129): the KindPool closed flag
is checked FIRST and yields `None`; otherwise `Pool::read` on the child
(pool.rs lines 93-100, 135-142): acquiring from a closed semaphore fails
(`None`); with a read permit available the shared value is taken.  (A
permit with an empty store cannot arise under the pool discipline; it is
mapped to `blocked`.) -/
def kindRead {V : Type} (s : KindPoolSt V) (k : Nat) :
    KindPoolSt V × KReadStatus V :=
  if s.closed then (s, .closedNone)
  else
    let p := s.getPool k
    if p.closed then (s.setPool k p, .closedNone)
    else if p.readPermits = 0 then (s.setPool k p, .blocked)
    else
      match p.store with
      | some v =>
        (s.setPool k { p with store := none, readPermits := p.readPermits - 1 },
         .got v)
      | none => (s.setPool k p, .blocked)

/-- C7 counterexample: a write of value 7 (kind 7) begins on a fresh
KindPool and suspends awaiting its reader; the pool is then closed; a
reader calling `read(7)` AFTER the close gets `None` — it can never
receive the in-flight value, because `KindPool::read` checks the closed
flag before touching the child pool that still holds the value. -/
theorem claim7_inflight_value_unreachable_counterexample :
    (kindWrite (fun v => v) (KindPoolSt.init Nat) 7).2 = KWriteStatus.pending ∧
    (kindRead (kindClose (kindWrite (fun v => v) (KindPoolSt.init Nat) 7).1) 7).2 =
      KReadStatus.closedNone ∧
    (kindRead (kindClose (kindWrite (fun v => v) (KindPoolSt.init Nat) 7).1) 7).2 ≠
      KReadStatus.got 7 :=
  ⟨rfl, rfl, by decide⟩

/-- C7 amended: after `close()` completes, `write(v)` returns `Closed(v)`
without touching any child pool, and EVERY subsequent `read` — including a
read of the kind of a value whose write began before the close — returns
`None`: the in-flight value is not delivered to any later reader (it stays
in the child pool store, unreachable past the KindPool closed flag). -/
theorem claim7_closed_kind_pool_behaviour {V : Type} (kindOf : V → Nat)
    (s : KindPoolSt V) (v : V) (h : s.closed = true) :
    kindWrite kindOf s v = (s, KWriteStatus.closedErr v) ∧
    (∀ k, kindRead s k = (s, KReadStatus.closedNone)) ∧
    (kindRead (kindClose (kindWrite kindOf (KindPoolSt.init V) v).1)
      (kindOf v)).2 = KReadStatus.closedNone := by
  refine ⟨by simp [kindWrite, h], fun k => by simp [kindRead, h], ?_⟩
  simp [kindWrite, kindRead, kindClose, KindPoolSt.init, KindPoolSt.getPool,
    KindPoolSt.setPool, PoolSt.init]

/-- C7 witness: on an already-closed KindPool over `Nat` values, a write of
7 returns `Closed(7)` leaving the state untouched, and a read of kind 3
returns `None`. -/
theorem claim7_closed_kind_pool_behaviour_case :
    kindWrite (fun v => v) (kindClose (KindPoolSt.init Nat)) 7 =
      (kindClose (KindPoolSt.init Nat), KWriteStatus.closedErr 7) ∧
    kindRead (kindClose (KindPoolSt.init Nat)) 3 =
      (kindClose (KindPoolSt.init Nat), KReadStatus.closedNone) :=
  ⟨(claim7_closed_kind_pool_behaviour (fun v => v) (kindClose (KindPoolSt.init Nat))
      7 rfl).1,
   (claim7_closed_kind_pool_behaviour (fun v => v) (kindClose (KindPoolSt.init Nat))
      7 rfl).2.1 3⟩

/-! ## ConcatBuf (src/mem/buffer.rs)

The incremental deframer.  Its contents are a byte buffer (`inner`) and
at most one in-progress chunk with its fill position (`partial_chunk` in
the source; `partChunk` here).  `fragment` (lines 130-135) compacts the
buffer in memory without changing its contents, so it is the identity in
this model.  `create_chunk` (lines 61-74) allocates `header_len +
body_len` bytes, writes the header back and `set_len`s the rest
(uninitialized bytes are modelled as 0; every byte past the header is
overwritten by a copy before a chunk is returned or stored). -/

structure ConcatBuf where
  inner : List Nat
  partChunk : Option (Nat × List Nat)
  deriving DecidableEq, Repr

/-- A fresh buffer (`with_capacity` / `default` start empty). -/
def ConcatBuf.empty : ConcatBuf := ⟨[], none⟩

/-- Source `Chunk::max_body_len` (buffer.rs lines 27-29): `256 ^ header_len`. -/
def max_body_len (w : Nat) : Nat := 256 ^ w

/-- Source `ConcatBuf::with_capacity` (buffer.rs lines 50-59): panics — modelled
as `none` — when `capacity < header_len + max_body_len`. -/
def withCapacity (w capacity : Nat) : Option ConcatBuf :=
  if capacity < w + max_body_len w then none
  else some ConcatBuf.empty

/-- The capacity allocated by `Default for ConcatBuf` (buffer.rs lines
138-147): `(header_len + 256 ^ header_len - 1) * 2`. -/
def defaultCapacity (w : Nat) : Nat := (w + 256 ^ w - 1) * 2

/-- Incoming bytes are appended to the buffer (the read loop fills the
`BytesMut` deref target via `try_read_buf`; the tests use `put_u8`). -/
def ConcatBuf.feed (s : ConcatBuf) (bs : List Nat) : ConcatBuf :=
  ⟨s.inner ++ bs, s.partChunk⟩

/-- Source `ConcatBuf::try_read_chunk` (buffer.rs lines 83-135) for header width
`w`.

With a stored `partial_chunk` (lines 93-101): when the buffered bytes
complete it, the tail is copied into the chunk from its fill position and
the chunk is released; otherwise it is put back unchanged and the call
returns `None`.

Otherwise (lines 103-128): a header needs `w` bytes (else `None`); the
body length `L` is `get_uint(w)` (consuming the header); a chunk of
`w + L` bytes is created holding the re-encoded header.  If `L` bytes are
buffered they are copied after the header and the chunk is released;
otherwise all buffered bytes are copied, the fill position
`current_len = inner.len() + w` recorded, and the partial chunk stored. -/
def tryReadChunk (w : Nat) (s : ConcatBuf) : Option (List Nat) × ConcatBuf :=
  match s.partChunk with
  | some (currentLen, chunk) =>
    if chunk.length ≤ currentLen + s.inner.length then
      (some (chunk.take currentLen ++ s.inner.take (chunk.length - currentLen)),
       ⟨s.inner.drop (chunk.length - currentLen), none⟩)
    else
      (none, ⟨s.inner, some (currentLen, chunk)⟩)
  | none =>
    if s.inner.length < w then
      (none, ⟨s.inner, none⟩)
    else
      let bodyLen := getUint w s.inner
      let rest := s.inner.drop w
      if bodyLen ≤ rest.length then
        (some (putUint bodyLen w ++ rest.take bodyLen), ⟨rest.drop bodyLen, none⟩)
      else
        (none, ⟨[], some (rest.length + w,
          putUint bodyLen w ++ rest ++ List.replicate (bodyLen - rest.length) 0)⟩)

/-- C9 counterexample: a capacity of 70000 is below the claimed bound
`2 * (header_len + max_body_len)` with `max_body_len = 256^2 - 2`, so the
claim requires the constructor to refuse it — but the code accepts it:
its panic guard only requires `header_len + 256^header_len = 65538`. -/
theorem claim9_capacity_bound_counterexample :
    withCapacity 2 70000 = some ConcatBuf.empty ∧
    70000 < 2 * (2 + (256 ^ 2 - 2)) := by
  constructor
  · rw [withCapacity, if_neg]
    rw [max_body_len]
    norm_num
  · norm_num

/-- C9 amended: `ConcatBuf::with_capacity` refuses (panics on) exactly the
capacities below `header_len + 256^header_len` — room for ONE maximal
chunk, where the code `max_body_len` is `256^header_len`, not
`256^header_len - 2` — and the default-constructed buffer capacity
`(header_len + 256^header_len - 1) * 2 = 131074` does satisfy the
claimed bound `2 * (header_len + (256^header_len - 2)) = 131072`. -/
theorem claim9_capacity_guard (c : Nat) :
    (c < 2 + 256 ^ 2 → withCapacity 2 c = none) ∧
    (2 + 256 ^ 2 ≤ c → withCapacity 2 c = some ConcatBuf.empty) ∧
    defaultCapacity 2 = 131074 ∧
    2 * (2 + (256 ^ 2 - 2)) ≤ defaultCapacity 2 := by
  refine ⟨fun h => ?_, fun h => ?_, by norm_num [defaultCapacity],
    by norm_num [defaultCapacity]⟩
  · rw [withCapacity, if_pos]
    rw [max_body_len]
    exact h
  · rw [withCapacity, if_neg]
    rw [max_body_len]
    omega

/-- C9 witness: capacity 65537 is refused, capacity 65538 is accepted. -/
theorem claim9_capacity_guard_case :
    withCapacity 2 65537 = none ∧ withCapacity 2 65538 = some ConcatBuf.empty :=
  ⟨(claim9_capacity_guard 65537).1 (by norm_num),
   (claim9_capacity_guard 65538).2.1 (by norm_num)⟩

/-- Repeated `try_read_chunk` calls until one returns `None` (the caller
invariant: "call this function until it returns None"), collecting the
chunks; `fuel` bounds the number of calls. -/
def drain (w : Nat) : Nat → ConcatBuf → List (List Nat)
  | 0, _ => []
  | fuel + 1, s =>
    match tryReadChunk w s with
    | (some c, s1) => c :: drain w fuel s1
    | (none, _) => []

/-- Feed the stream one byte at a time, calling `try_read_chunk` once after
each byte; the list of per-call results. -/
def feedTrace (w : Nat) : ConcatBuf → List Nat → List (Option (List Nat))
  | _, [] => []
  | s, b :: bs =>
    match tryReadChunk w (s.feed [b]) with
    | (c, s1) => c :: feedTrace w s1 bs

/-- C8: feeding the 12-byte stream
`[0,1,0xAA, 0,2,0xBB,0xCC, 0,3,1,2,3]` to a `ConcatBuf` with
`header_len = 2` and draining yields exactly three chunks with
post-header contents `[0xAA]`, `[0xBB,0xCC]`, `[1,2,3]`; and feeding the
same stream one byte at a time with one `try_read_chunk` call after each
byte returns `None` everywhere except at bytes 3, 7 and 12 — the exact
positions where a frame completes. -/
theorem claim8_framing_boundary_scenarios :
    (drain 2 4 (ConcatBuf.empty.feed
        [0x00, 0x01, 0xAA, 0x00, 0x02, 0xBB, 0xCC, 0x00, 0x03, 0x01, 0x02, 0x03])).map
        (List.drop 2) = [[0xAA], [0xBB, 0xCC], [0x01, 0x02, 0x03]] ∧
    feedTrace 2 ConcatBuf.empty
        [0x00, 0x01, 0xAA, 0x00, 0x02, 0xBB, 0xCC, 0x00, 0x03, 0x01, 0x02, 0x03] =
      [none, none, some [0x00, 0x01, 0xAA],
       none, none, none, some [0x00, 0x02, 0xBB, 0xCC],
       none, none, none, none, some [0x00, 0x03, 0x01, 0x02, 0x03]] := by
  constructor
  · decide
  · decide

/-! ## Chunk length law (C10)

What `try_read_chunk` guarantees about the length of the chunks it
releases, driving the `Frame::kind` bounds question: `Frame::kind` reads
`inner[HEADER_LEN_BYTES]`, which is in bounds iff the chunk is longer
than `HEADER_LEN_BYTES`. -/

/-- An operation on a `ConcatBuf`: bytes arriving, or one
`try_read_chunk` call. -/
inductive BufOp where
  | feed (bs : List Nat)
  | tryRead
  deriving DecidableEq, Repr

/-- Run a sequence of operations from a state, collecting every chunk
released. -/
def runOps (w : Nat) : List BufOp → ConcatBuf → ConcatBuf × List (List Nat)
  | [], s => (s, [])
  | BufOp.feed bs :: ops, s => runOps w ops (s.feed bs)
  | BufOp.tryRead :: ops, s =>
    let r := tryReadChunk w s
    let t := runOps w ops r.2
    (t.1, r.1.toList ++ t.2)

/-- All entries of the list are byte values. -/
def bytesOk (l : List Nat) : Prop := ∀ b ∈ l, b < 256

/-- Shape of a stored in-progress chunk: the fill position is past the
header and strictly inside the chunk, and the chunk was allocated by
`create_chunk` for some body length `L`: its length is `w + L` and its
first `w` bytes re-encode `L`. -/
def partWF (w : Nat) : Option (Nat × List Nat) → Prop
  | none => True
  | some (cur, ch) => w ≤ cur ∧ cur < ch.length ∧
      ∃ L, L < 256 ^ w ∧ ch.length = w + L ∧ ch.take w = putUint L w

/-- Well-formedness of a deframer state reachable from byte input. -/
def bufWF (w : Nat) (s : ConcatBuf) : Prop :=
  bytesOk s.inner ∧ partWF w s.partChunk

theorem bytesOk_take (l : List Nat) (n : Nat) (h : bytesOk l) : bytesOk (l.take n) :=
  fun b hb => h b ((List.take_sublist n l).subset hb)

theorem bytesOk_drop (l : List Nat) (n : Nat) (h : bytesOk l) : bytesOk (l.drop n) :=
  fun b hb => h b ((List.drop_sublist n l).subset hb)

theorem getUint_lt (w : Nat) (l : List Nat) (hw : w ≤ l.length) (h : bytesOk l) :
    getUint w l < 256 ^ w := by
  have h1 : (l.take w).length = w := by
    rw [List.length_take]
    omega
  have h2 := bytesToNat_lt_of_bytes (l.take w) (bytesOk_take l w h)
  rw [h1] at h2
  exact h2

theorem take_w_append_putUint (w L : Nat) (tail : List Nat) :
    (putUint L w ++ tail).take w = putUint L w := by
  rw [List.take_append_of_le_length (le_of_eq (putUint_length L w).symm),
    List.take_of_length_le (le_of_eq (putUint_length L w))]

theorem getUint_append_putUint (w L : Nat) (hL : L < 256 ^ w) (tail : List Nat) :
    getUint w (putUint L w ++ tail) = L := by
  rw [getUint, take_w_append_putUint]
  exact bytesToNat_putUint L w hL

/-- One `try_read_chunk` call from a well-formed state leaves a
well-formed state, and any chunk it releases has length exactly
`w + L` where `L` is the chunk decoded length field. -/
theorem tryReadChunk_spec (w : Nat) (s : ConcatBuf) (h : bufWF w s) :
    bufWF w (tryReadChunk w s).2 ∧
    ∀ c, (tryReadChunk w s).1 = some c → c.length = w + getUint w c := by
  obtain ⟨inner, part⟩ := s
  obtain ⟨hin, hpart⟩ := h
  cases part with
  | none =>
    by_cases hlen : inner.length < w
    · have heq : tryReadChunk w ⟨inner, none⟩ = (none, ⟨inner, none⟩) := by
        simp [tryReadChunk, hlen]
      rw [heq]
      exact ⟨⟨hin, trivial⟩, fun c hc => by simp at hc⟩
    · have hwle : w ≤ inner.length := Nat.le_of_not_lt hlen
      have hL : getUint w inner < 256 ^ w := getUint_lt w inner hwle hin
      by_cases hbody : getUint w inner ≤ inner.length - w
      · have heq : tryReadChunk w ⟨inner, none⟩ =
            (some (putUint (getUint w inner) w ++
              (inner.drop w).take (getUint w inner)),
             ⟨(inner.drop w).drop (getUint w inner), none⟩) := by
          simp [tryReadChunk, hlen, hbody]
        rw [heq]
        refine ⟨⟨bytesOk_drop _ _ (bytesOk_drop _ _ hin), trivial⟩, fun c hc => ?_⟩
        simp only [Option.some.injEq] at hc
        subst hc
        rw [getUint_append_putUint w _ hL]
        rw [List.length_append, putUint_length, List.length_take, List.length_drop]
        omega
      · have heq : tryReadChunk w ⟨inner, none⟩ =
            (none, ⟨[], some ((inner.drop w).length + w,
              putUint (getUint w inner) w ++ inner.drop w ++
                List.replicate (getUint w inner - (inner.drop w).length) 0)⟩) := by
          simp [tryReadChunk, hlen, hbody]
        rw [heq]
        have hrlt : inner.length - w < getUint w inner := Nat.lt_of_not_le hbody
        refine ⟨⟨fun b hb => absurd hb (List.not_mem_nil b), ?_⟩, fun c hc => by simp at hc⟩
        refine ⟨Nat.le_add_left w _, ?_, getUint w inner, hL, ?_, ?_⟩
        · rw [List.length_append, List.length_append, putUint_length,
            List.length_replicate, List.length_drop]
          omega
        · rw [List.length_append, List.length_append, putUint_length,
            List.length_replicate, List.length_drop]
          omega
        · rw [List.append_assoc, take_w_append_putUint]
  | some pc =>
    obtain ⟨cur, ch⟩ := pc
    obtain ⟨hwcur, hcurlt, L, hL, hchlen, hchtake⟩ := hpart
    by_cases hc : ch.length ≤ cur + inner.length
    · have heq : tryReadChunk w ⟨inner, some (cur, ch)⟩ =
          (some (ch.take cur ++ inner.take (ch.length - cur)),
           ⟨inner.drop (ch.length - cur), none⟩) := by
        simp [tryReadChunk, hc]
      rw [heq]
      refine ⟨⟨bytesOk_drop _ _ hin, trivial⟩, fun c hcc => ?_⟩
      simp only [Option.some.injEq] at hcc
      subst hcc
      have hlen1 : (ch.take cur).length = cur := by
        rw [List.length_take]
        omega
      have hlen2 : (inner.take (ch.length - cur)).length = ch.length - cur := by
        rw [List.length_take]
        omega
      have htake : (ch.take cur ++ inner.take (ch.length - cur)).take w = putUint L w := by
        rw [List.take_append_of_le_length (by omega : w ≤ (ch.take cur).length),
          List.take_take, Nat.min_eq_left hwcur, hchtake]
      rw [getUint, htake, bytesToNat_putUint L w hL, List.length_append, hlen1, hlen2]
      omega
    · have heq : tryReadChunk w ⟨inner, some (cur, ch)⟩ =
          (none, ⟨inner, some (cur, ch)⟩) := by
        simp [tryReadChunk, hc]
      rw [heq]
      exact ⟨⟨hin, hwcur, hcurlt, L, hL, hchlen, hchtake⟩, fun c hcc => by simp at hcc⟩

theorem bufWF_feed (w : Nat) (s : ConcatBuf) (bs : List Nat) (h : bufWF w s)
    (hbs : bytesOk bs) : bufWF w (s.feed bs) := by
  refine ⟨fun b hb => ?_, h.2⟩
  rcases List.mem_append.1 hb with h1 | h1
  · exact h.1 b h1
  · exact hbs b h1

theorem runOps_chunks_good (w : Nat) (ops : List BufOp) (s : ConcatBuf)
    (h : bufWF w s) (hops : ∀ bs, BufOp.feed bs ∈ ops → bytesOk bs) :
    ∀ c ∈ (runOps w ops s).2, c.length = w + getUint w c := by
  induction ops generalizing s with
  | nil => intro c hc; simp [runOps] at hc
  | cons op ops ih =>
    have hops2 : ∀ bs, BufOp.feed bs ∈ ops → bytesOk bs :=
      fun bs hb => hops bs (List.mem_cons_of_mem op hb)
    cases op with
    | feed bs =>
      intro c hc
      have h1 : bufWF w (s.feed bs) :=
        bufWF_feed w s bs h (hops bs (List.mem_cons_self _ _))
      exact ih (s.feed bs) h1 hops2 c (by simpa [runOps] using hc)
    | tryRead =>
      intro c hc
      obtain ⟨hwf, hgood⟩ := tryReadChunk_spec w s h
      simp only [runOps] at hc
      rcases List.mem_append.1 hc with h1 | h1
      · cases hopt : (tryReadChunk w s).1 with
        | none => rw [hopt] at h1; simp at h1
        | some c2 =>
          rw [hopt] at h1
          simp only [Option.toList, List.mem_singleton] at h1
          obtain rfl := h1
          exact hgood _ hopt
      · exact ih _ hwf hops2 c h1

/-- C10 counterexample: an incoming stream whose 2-byte length field is 0
(bytes `[0x00, 0x00]`) makes `try_read_chunk` release a chunk of length
exactly `header_len = 2`, which is less than the `header_len + 1` the
claim requires, so the `Frame::kind` lookup at index `HEADER_LEN_BYTES`
would be out of bounds on it.  (The repo test `zero_len_chunks`
endorses this header-only chunk at the `ConcatBuf` level.) -/
theorem claim10_zero_length_field_counterexample :
    (runOps 2 [BufOp.feed [0x00, 0x00], BufOp.tryRead] ConcatBuf.empty).2 = [[0, 0]] ∧
    ¬ HEADER_LEN_BYTES + 1 ≤ ([0, 0] : List Nat).length ∧
    ¬ HEADER_LEN_BYTES < ([0, 0] : List Nat).length :=
  ⟨by decide, by decide, by decide⟩

/-- C10 amended: for every byte-valued input sequence, every chunk
released by `try_read_chunk` has length `header_len + L`, where `L` is
the chunk length field; the `Frame::kind` index at position
`header_len` is in bounds exactly when `L ≥ 1`.  A length field of 0 —
legal on the wire for `ConcatBuf` — yields a header-only chunk on which
the kind lookup is out of bounds. -/
theorem claim10_chunk_length_law (ops : List BufOp)
    (hops : ∀ bs, BufOp.feed bs ∈ ops → bytesOk bs) :
    ∀ c ∈ (runOps 2 ops ConcatBuf.empty).2,
      c.length = HEADER_LEN_BYTES + getUint 2 c ∧
      (HEADER_LEN_BYTES < c.length ↔ 1 ≤ getUint 2 c) := by
  intro c hc
  have hwf : bufWF 2 ConcatBuf.empty :=
    ⟨fun b hb => absurd hb (List.not_mem_nil b), trivial⟩
  have h := runOps_chunks_good 2 ops ConcatBuf.empty hwf hops c hc
  have hh : HEADER_LEN_BYTES = 2 := rfl
  rw [hh]
  omega

/-- C10 witness: the stream `[0x00, 0x01, 0x05]` (length field 1) yields
the chunk `[0, 1, 5]`, whose length 3 satisfies the law and admits the
kind lookup. -/
theorem claim10_chunk_length_law_case :
    ([0, 1, 5] : List Nat).length = HEADER_LEN_BYTES + getUint 2 [0, 1, 5] ∧
    (HEADER_LEN_BYTES < ([0, 1, 5] : List Nat).length ↔ 1 ≤ getUint 2 [0, 1, 5]) :=
  claim10_chunk_length_law [BufOp.feed [0, 1, 5], BufOp.tryRead]
    (by
      intro bs hbs
      simp only [List.mem_cons, List.not_mem_nil, or_false] at hbs
      rcases hbs with h1 | h1
      · cases h1
        intro b hb
        fin_cases hb <;> norm_num
      · cases h1)
    [0, 1, 5] (by decide)

end Cobra
